import Mathlib

/-!
Verification development for the AShell tab-completion engine
(`src/autocomplete.py`).

Embedding conventions:
* Python strings are Lean `String`; all character-level operations are
  implemented over `List Char` so that every definition evaluates by kernel
  reduction.  Character classes follow the ASCII behaviour of the Python
  regexes used by the module.
* Python `set` values are modelled as duplicate-free lists in first-insertion
  order (`insertTok`); `sorted(...)` is a stable insertion sort by code-point
  order, which agrees with CPython on duplicate-free inputs.
* Python `dict` values are modelled as association lists (`aset` writes,
  `List.lookup` reads, `setd` is `dict.setdefault`).
* Filesystem access, `shutil.which`, `os.path.expanduser`/`expandvars`,
  `shlex`, and every `subprocess.run` probe are external effects and are
  supplied by an explicit `Env` record of oracles; `scandir` may fail with an
  exception, every probe oracle returns `none` for the spawn failures and
  timeouts that the source swallows.
* The module-level caches (`EXTERNAL_FLAG_CACHE`, `EXTERNAL_POSITIONAL_CACHE`,
  `EXTERNAL_POSITIONAL_TREE`, `EXTERNAL_METADATA_ATTEMPTED`,
  `EXTERNAL_PREFIX_ATTEMPTED`) form the explicit state `ExtState`, threaded
  through every stateful function together with a log of issued probes.
* Python exceptions are modelled by `Except Exn`; the `try/except OSError`
  and `try/except Exception` guards of the source are translated branch by
  branch.
-/

namespace AShell

/-! ### Generic list and string utilities -/

/-- Drop the longest suffix whose characters satisfy `p`. -/
def dropWhileEnd (p : Char → Bool) (l : List Char) : List Char :=
  (l.reverse.dropWhile p).reverse

/-- `a.startswith(b)` on Python strings (character-wise). -/
def strStarts (a b : String) : Bool :=
  b.data.isPrefixOf a.data

/-- `a.endswith(b)` on Python strings (character-wise). -/
def strEnds (a b : String) : Bool :=
  b.data.reverse.isPrefixOf a.data.reverse

/-- `ch in a` for a single character, i.e. Python `"/" in s`. -/
def strHasChar (a : String) (c : Char) : Bool :=
  a.data.contains c

/-- `str.lower()` (ASCII case mapping, as used by the module). -/
def strLower (s : String) : String :=
  ⟨s.data.map Char.toLower⟩

/-- Code-point comparison of character lists: Python `<=` on strings. -/
def charListLe : List Char → List Char → Bool
  | [], _ => true
  | _ :: _, [] => false
  | a :: as, b :: bs =>
    if a.toNat < b.toNat then true
    else if b.toNat < a.toNat then false
    else charListLe as bs

/-- Python `a <= b` on strings. -/
def strLe (a b : String) : Bool :=
  charListLe a.data b.data

/-- Stable insertion of `x` after every element `y` with `le y x`. -/
def insertLe (le : α → α → Bool) (x : α) : List α → List α
  | [] => [x]
  | y :: ys => if le y x then y :: insertLe le x ys else x :: y :: ys

/-- Stable sort by `le` (models CPython `list.sort` on duplicate-free data). -/
def sortByLe (le : α → α → Bool) (l : List α) : List α :=
  l.foldl (fun acc x => insertLe le x acc) []

/-- Add `x` to a Python-set-as-list if absent (insertion order preserved). -/
def insertTok (l : List String) (x : String) : List String :=
  if l.contains x then l else l ++ [x]

/-- `_unique_preserving_order` helper with an explicit `seen` set. -/
def upoAux (seen : List String) : List String → List String
  | [] => []
  | v :: rest => if seen.contains v then upoAux seen rest else v :: upoAux (v :: seen) rest

/-- `_unique_preserving_order`: drop duplicates keeping first occurrences. -/
def uniquePreservingOrder (values : List String) : List String :=
  upoAux [] values

/-- Python dict write `m[k] = v` on an association list. -/
def aset [BEq α] : List (α × β) → α → β → List (α × β)
  | [], k, v => [(k, v)]
  | kv :: rest, k, v => if kv.1 == k then (k, v) :: rest else kv :: aset rest k v

/-- Python `m.setdefault(k, v)` (state part). -/
def setd [BEq α] (m : List (α × β)) (k : α) (v : β) : List (α × β) :=
  match List.lookup k m with
  | some _ => m
  | none => m ++ [(k, v)]

/-- Python `str.strip()` (whitespace on both ends). -/
def pyStrip (s : String) : String :=
  ⟨dropWhileEnd Char.isWhitespace (s.data.dropWhile Char.isWhitespace)⟩

/-- Python `str.strip(chars)` for an explicit character set. -/
def pyStripChars (cs : List Char) (s : String) : String :=
  ⟨dropWhileEnd (fun c => cs.contains c) (s.data.dropWhile (fun c => cs.contains c))⟩

/-- Python `str.rstrip(chars)`. -/
def pyRStripChars (cs : List Char) (s : String) : String :=
  ⟨dropWhileEnd (fun c => cs.contains c) s.data⟩

/-- Helper for `str.split()` with no separator. -/
def splitWsAux : List Char → List Char → List (List Char)
  | [], acc => if acc.isEmpty then [] else [acc.reverse]
  | c :: rest, acc =>
    if c.isWhitespace then
      if acc.isEmpty then splitWsAux rest [] else acc.reverse :: splitWsAux rest []
    else splitWsAux rest (c :: acc)

/-- Python `str.split()`: split on whitespace runs, no empty fields. -/
def pySplitWs (s : String) : List String :=
  (splitWsAux s.data []).map (fun l => ⟨l⟩)

/-- Helper splitting on any separator character, keeping empty fields. -/
def splitAnyAux (seps : List Char) : List Char → List Char → List (List Char)
  | [], acc => [acc.reverse]
  | c :: rest, acc =>
    if seps.contains c then acc.reverse :: splitAnyAux seps rest []
    else splitAnyAux seps rest (c :: acc)

/-- Split on any of the separator characters (Python `re.split` on a class). -/
def splitOnAny (seps : List Char) (l : List Char) : List (List Char) :=
  splitAnyAux seps l []

/-- Python `str.splitlines()` restricted to newline separators. -/
def pySplitLines (s : String) : List String :=
  if s = "" then []
  else
    let parts := (splitOnAny [Char.ofNat 10] s.data).map (fun l => (⟨l⟩ : String))
    if parts.getLastD "" = "" then parts.dropLast else parts

/-- First index at which `pat` occurs as a sublist, if any (`str.find`). -/
def findSubAux (pat : List Char) : List Char → Option Nat
  | [] => if pat.isEmpty then some 0 else none
  | c :: rest =>
    if pat.isPrefixOf (c :: rest) then some 0
    else (findSubAux pat rest).map (· + 1)

/-- Python `s.split("/")`-style splitting on a single character. -/
def splitOnChar (c : Char) (s : String) : List String :=
  (splitOnAny [c] s.data).map (fun l => ⟨l⟩)

/-- Python `"/".join(parts)`. -/
def joinWith (sep : String) : List String → String
  | [] => ""
  | [x] => x
  | x :: rest => x ++ sep ++ joinWith sep rest

/-! ### Static data of `autocomplete.py` -/

/-- `ESCAPE_CHARS`: shell metacharacters that `_escape_fragment` protects. -/
def ESCAPE_CHARS : List Char :=
  [' ', '\t', '\n', Char.ofNat 92, Char.ofNat 39, Char.ofNat 34, '$', Char.ofNat 96,
   '&', Char.ofNat 124, ';', '<', '>', '*', '?', '(', ')', '[', ']',
   Char.ofNat 123, Char.ofNat 125, '!']

/-- `HELP_TOKEN_STRIP`: punctuation stripped around help tokens. -/
def HELP_TOKEN_STRIP : List Char :=
  ['.', ',', ';', ':', '(', ')', '[', ']', Char.ofNat 123, Char.ofNat 125,
   '<', '>', Char.ofNat 124, Char.ofNat 34, Char.ofNat 39]

/-- `EXTERNAL_STOP_WORDS`. -/
def EXTERNAL_STOP_WORDS : List String :=
  ["usage", "options", "option", "argument", "arguments", "command", "commands",
   "object", "objects", "help", "examples", "example", "description",
   "available", "list", "show", "when", "where"]

/-- `EXTERNAL_HELP_SWITCHES`. -/
def EXTERNAL_HELP_SWITCHES : List String :=
  ["--help", "-h", "-?", "help"]

/-- `EXTERNAL_CONTEXT_SWITCHES`. -/
def EXTERNAL_CONTEXT_SWITCHES : List (List String) :=
  [["--help"], ["help"], ["-h"]]

/-- `CommandSpec` dataclass. -/
structure CommandSpec where
  name : String
  aliases : List String
  flags : List String
  takes_path : Bool
deriving DecidableEq, Repr

/-- `COMMAND_SPECS`.  The Python source writes the `ashell` flags as the bare
string `("upgrade")`; only its truthiness is ever observed on the paths
modelled here, so it is embedded as the singleton list. -/
def COMMAND_SPECS : List CommandSpec :=
  [⟨"help", ["help"], [], false⟩,
   ⟨"exit", ["exit"], [], false⟩,
   ⟨"reload", ["reload"], ["--full", "--hard", "--all", "-f", "-a"], false⟩,
   ⟨"clear", ["clear"], [], false⟩,
   ⟨"cd", ["cd", "goto"], [], true⟩,
   ⟨"ls", ["ls", "dir"], ["-a", "-A", "--all", "--"], true⟩,
   ⟨"mkdir", ["mkdir"], [], true⟩,
   ⟨"touch", ["touch"], [], true⟩,
   ⟨"rm", ["rm"], ["-f", "-r", "-R", "-rf", "-fr", "--"], true⟩,
   ⟨"micro", ["micro"], [], true⟩,
   ⟨"ashell", ["ashell"], ["upgrade"], false⟩]

/-- `COMMAND_BY_ALIAS`: alias-to-spec dict built by the module loop. -/
def COMMAND_BY_ALIAS : List (String × CommandSpec) :=
  COMMAND_SPECS.foldl (fun m sp => sp.aliases.foldl (fun m a => aset m a sp) m) []

/-- `ALL_COMMAND_ALIASES = tuple(sorted(COMMAND_BY_ALIAS))`. -/
def ALL_COMMAND_ALIASES : List String :=
  sortByLe strLe (COMMAND_BY_ALIAS.map (fun kv => kv.1))

/-! ### Fragment escaping (`_unescape_fragment` / `_escape_fragment`) -/

/-- Loop body of `_unescape_fragment`: the Bool is the `escaping` flag. -/
def unescapeList : List Char → Bool → List Char
  | [], false => []
  | [], true => [Char.ofNat 92]
  | c :: rest, true => c :: unescapeList rest false
  | c :: rest, false =>
    if c = Char.ofNat 92 then unescapeList rest true else c :: unescapeList rest false

/-- `_unescape_fragment`. -/
def _unescape_fragment (value : String) : String :=
  if value = "" then value else ⟨unescapeList value.data false⟩

/-- Loop body of `_escape_fragment`. -/
def escapeList : List Char → List Char
  | [] => []
  | c :: rest =>
    if ESCAPE_CHARS.contains c then Char.ofNat 92 :: c :: escapeList rest
    else c :: escapeList rest

/-- `_escape_fragment`. -/
def _escape_fragment (value : String) : String :=
  if value = "" then value else ⟨escapeList value.data⟩

theorem unescapeList_escapeList (l : List Char) :
    unescapeList (escapeList l) false = l := by
  induction l with
  | nil => rfl
  | cons c rest ih =>
    by_cases h : c ∈ ESCAPE_CHARS
    · simp [escapeList, h, unescapeList, ih]
    · have hc : ¬ c = Char.ofNat 92 := by
        intro hEq
        apply h
        rw [hEq]
        decide
      simp [escapeList, h, unescapeList, hc, ih]

/-- C9: unescaping inverts escaping on every string. -/
theorem c9_escape_roundtrip (s : String) :
    _unescape_fragment (_escape_fragment s) = s := by
  by_cases h : s = ""
  · subst h; rfl
  · have hdata : s.data ≠ [] := by
      intro hd
      apply h
      cases s with
      | mk l =>
        simp only at hd
        rw [hd]
    unfold _escape_fragment
    rw [if_neg h]
    unfold _unescape_fragment
    have hne : (⟨escapeList s.data⟩ : String) ≠ "" := by
      intro hEq
      have hdat : escapeList s.data = [] := congrArg String.data hEq
      cases hd : s.data with
      | nil => exact hdata hd
      | cons c rest =>
        rw [hd] at hdat
        by_cases hm : c ∈ ESCAPE_CHARS <;> simp [escapeList, hm] at hdat
    rw [if_neg hne]
    have : unescapeList (escapeList s.data) false = s.data := unescapeList_escapeList s.data
    cases s with
    | mk l => simpa using congrArg (fun d => (⟨d⟩ : String)) this

/-! ### Help-text heuristics -/

/-- ASCII `\w` of the Python regexes. -/
def wordChar (c : Char) : Bool :=
  c.isAlphanum || c = '_'

/-- The identifier class `[A-Za-z0-9._-]` of the Python regexes. -/
def identChar (c : Char) : Bool :=
  c.isAlphanum || c = '.' || c = '_' || c = '-'

/-- Python `str.isupper()` restricted to ASCII cased characters. -/
def pyIsUpper (s : String) : Bool :=
  s.data.any Char.isAlpha && s.data.all (fun c => !c.isLower)

/-- `re.fullmatch(r"[A-Za-z][A-Za-z0-9._-]*", s)` as a Bool. -/
def identShape (s : String) : Bool :=
  match s.data with
  | [] => false
  | c :: rest => c.isAlpha && rest.all identChar

/-- `_normalize_help_token`. -/
def _normalize_help_token (token : String) (command_lower : String) : Option String :=
  let stripped := pyStripChars HELP_TOKEN_STRIP token
  if stripped = "" then none
  else
    let stripped : String := ⟨stripped.data.filter (fun c => !(c == '[') && !(c == ']'))⟩
    if stripped = "" || strStarts stripped "-" then none
    else
      let lower := strLower stripped
      if lower = command_lower || EXTERNAL_STOP_WORDS.contains lower then none
      else if lower.data.length ≤ 1 then none
      else if !(stripped.data.any Char.isAlpha) then none
      else if pyIsUpper stripped then none
      else if !(identShape stripped) then none
      else some stripped

/-- Body `[\w?][\w-]*` of the flag regex, after the leading hyphens. -/
def flagCore : List Char → Option (List Char)
  | [] => none
  | c :: rest =>
    if wordChar c || c = '?' then some (c :: rest.takeWhile (fun d => wordChar d || d = '-'))
    else none

/-- Try to match `--?[\w?][\w-]*` at the head of the character list. -/
def tryFlag : List Char → Option (List Char)
  | '-' :: '-' :: rest => (flagCore rest).map (fun core => '-' :: '-' :: core)
  | '-' :: rest => (flagCore rest).map (fun core => '-' :: core)
  | _ => none

/-- Left-to-right non-overlapping scan of the flag pattern
`(?<![\w-])(--?[\w?][\w-]*)`; `prev` is the character before the current
position (the lookbehind).  Structural recursion on a fuel bounded by the
input length: every step consumes at least one character, so the fuel of
`scanFlags` never runs out. -/
def scanFlagsFuel : Nat → Option Char → List Char → List String
  | 0, _, _ => []
  | _ + 1, _, [] => []
  | fuel + 1, prev, c :: rest =>
    let lookOk : Bool :=
      match prev with
      | none => true
      | some pc => !(wordChar pc || pc = '-')
    if lookOk then
      match tryFlag (c :: rest) with
      | some m => ⟨m⟩ :: scanFlagsFuel fuel (some (m.getLastD ' ')) (rest.drop (m.length - 1))
      | none => scanFlagsFuel fuel (some c) rest
    else scanFlagsFuel fuel (some c) rest

/-- All matches of the flag regex over a character list. -/
def scanFlags (l : List Char) : List String :=
  scanFlagsFuel (l.length + 1) none l

/-- Punctuation trimmed from matched flags (`token.rstrip(".,;:)")`). -/
def FLAG_RSTRIP : List Char :=
  ['.', ',', ';', ':', ')']

/-- `_extract_flags_from_text`: the resulting Python set as a list in
first-match order. -/
def _extract_flags_from_text (output : String) : List String :=
  if output = "" then []
  else
    (scanFlags output.data).foldl
      (fun acc token =>
        let cleaned := pyRStripChars FLAG_RSTRIP token
        if cleaned ≠ "" then insertTok acc cleaned else acc) []

/-- `parts = parts[1:] if parts and parts[0].lower() == command_lower`. -/
def dropCmdHead (command_lower : String) : List String → List String
  | [] => []
  | p :: rest => if strLower p = command_lower then rest else p :: rest

/-- One non-skipped line of `_extract_positionals_from_text`. -/
def extractPosLine (command_lower : String) (tokens : List String) (stripped : String) :
    List String :=
  (dropCmdHead command_lower (pySplitWs stripped)).foldl
    (fun acc part =>
      match _normalize_help_token part command_lower with
      | some n => insertTok acc n
      | none => acc) tokens

/-- Line loop of `_extract_positionals_from_text`, with the `>= 128` break
checked after each processed line. -/
def extractPosAux (command_lower : String) : List String → List String → List String
  | acc, [] => acc
  | acc, line :: rest =>
    let stripped := pyStrip line
    if stripped = "" then extractPosAux command_lower acc rest
    else
      let lower := strLower stripped
      if strStarts lower "usage" || strStarts lower "synopsis" then
        extractPosAux command_lower acc rest
      else if strStarts stripped "-" then extractPosAux command_lower acc rest
      else if strEnds stripped ":" && !(strHasChar stripped ' ') then
        extractPosAux command_lower acc rest
      else
        let acc := extractPosLine command_lower acc stripped
        if 128 ≤ acc.length then acc else extractPosAux command_lower acc rest

/-- `_extract_positionals_from_text` (Python set as insertion-ordered list). -/
def _extract_positionals_from_text (output : String) (command_name : String) : List String :=
  if output = "" then []
  else extractPosAux (strLower command_name) [] (pySplitLines output)

/-- A per-executable positional tree: prefix-keyed association list. -/
abbrev TreeMap := List (List String × List String)

/-- `tree[key].add(v)` on a `defaultdict(set)`. -/
def treeAdd (tree : TreeMap) (key : List String) (v : String) : TreeMap :=
  match List.lookup key tree with
  | some vs => aset tree key (insertTok vs v)
  | none => tree ++ [(key, [v])]

/-- Walk of the remainder of a usage line in `_build_positional_tree`. -/
def treeWalk (command_lower : String) : TreeMap → List String → List String → TreeMap
  | tree, _, [] => tree
  | tree, pfxAcc, part :: rest =>
    match _normalize_help_token part command_lower with
    | none => treeWalk command_lower tree pfxAcc rest
    | some n => treeWalk command_lower (treeAdd tree pfxAcc n) (pfxAcc ++ [n]) rest

/-- One line of `_build_positional_tree`. -/
def buildTreeLine (command_name command_lower : String) (tree : TreeMap) (raw_line : String) :
    TreeMap :=
  let stripped := pyStrip raw_line
  if stripped = "" then tree
  else
    let headTok := (pySplitWs stripped).headD ""
    let tree :=
      match _normalize_help_token headTok command_lower with
      | some nh => treeAdd tree [] nh
      | none => tree
    let lowered := strLower raw_line
    match findSubAux command_lower.data lowered.data with
    | none => tree
    | some idx =>
      let tail : String := ⟨raw_line.data.drop (idx + command_name.data.length)⟩
      let tailSp : String := ⟨tail.data.map (fun c => if c = '/' then ' ' else c)⟩
      treeWalk command_lower tree [] (pySplitWs tailSp)

/-- `_build_positional_tree`. -/
def _build_positional_tree (output : String) (command_name : String) : TreeMap :=
  if output = "" then []
  else (pySplitLines output).foldl (buildTreeLine command_name (strLower command_name)) []

/-- `add_candidate` of `_parse_candidate_words`. -/
def addCandidate (command_lower : String) (ignore : List String) (tokens : List String)
    (raw : String) : List String :=
  let raw := pyStrip raw
  if raw = "" then tokens
  else
    match _normalize_help_token raw command_lower with
    | none => tokens
    | some normalized =>
      let lower := strLower normalized
      if ignore.contains lower || EXTERNAL_STOP_WORDS.contains lower then tokens
      else insertTok tokens normalized

/-- `re.findall` of a delimited group such as `\[([^\]]+)\]`, left to right,
non-overlapping, contents non-empty. -/
def findBracketed (op cl : Char) : List Char → List (List Char)
  | [] => []
  | c :: rest =>
    if c = op then
      let content := rest.takeWhile (fun d => d ≠ cl)
      if content.length < rest.length then
        if content.isEmpty then findBracketed op cl rest
        else content :: findBracketed op cl (rest.drop (content.length + 1))
      else []
    else findBracketed op cl rest
termination_by l => l.length
decreasing_by
  all_goals simp [List.length_drop]
  all_goals omega

/-- `re.match(r"([A-Za-z0-9._-]+)\s+-\s+", line)`: the captured group. -/
def dashMatchGroup (line : List Char) : Option (List Char) :=
  let r1 := line.takeWhile identChar
  if r1.isEmpty then none
  else
    let rest1 := line.drop r1.length
    let w1 := rest1.takeWhile Char.isWhitespace
    if w1.isEmpty then none
    else
      match rest1.drop w1.length with
      | c :: rest2 =>
        if c = '-' then
          if (rest2.takeWhile Char.isWhitespace).isEmpty then none else some r1
        else none
      | [] => none

/-- One line of `_parse_candidate_words`. -/
def parseCandidateLine (command_lower : String) (ignore : List String)
    (tokens : List String) (line : String) : List String :=
  let t1 := (findBracketed '[' ']' line.data).foldl
    (fun acc content =>
      (splitOnAny [Char.ofNat 124, ','] content).foldl
        (fun a part => addCandidate command_lower ignore a ⟨part⟩) acc) tokens
  let t2 := (findBracketed '<' '>' line.data).foldl
    (fun acc content =>
      (splitOnAny [Char.ofNat 124, ','] content).foldl
        (fun a part => addCandidate command_lower ignore a ⟨part⟩) acc) t1
  let t3 := (findBracketed (Char.ofNat 123) (Char.ofNat 125) line.data).foldl
    (fun acc content =>
      (splitOnAny [Char.ofNat 124, ','] content).foldl
        (fun a part => addCandidate command_lower ignore a ⟨part⟩) acc) t2
  let t4 :=
    match dashMatchGroup line.data with
    | some g => addCandidate command_lower ignore t3 ⟨g⟩
    | none => t3
  match findSubAux [':', '='] line.data with
  | some i =>
    let rhs : String := ⟨line.data.drop (i + 2)⟩
    (pySplitWs rhs).foldl (fun a part => addCandidate command_lower ignore a part) t4
  | none => t4

/-- Line loop of `_parse_candidate_words`, with the `>= 256` break. -/
def parseCandidatesAux (command_lower : String) (ignore : List String) :
    List String → List String → List String
  | acc, [] => acc
  | acc, rawLine :: rest =>
    let line := pyStrip rawLine
    if line = "" then parseCandidatesAux command_lower ignore acc rest
    else
      let acc := parseCandidateLine command_lower ignore acc line
      if 256 ≤ acc.length then acc else parseCandidatesAux command_lower ignore acc rest

/-- `_parse_candidate_words` (Python set as insertion-ordered list). -/
def _parse_candidate_words (output : String) (command_lower : String)
    (ignore : List String) : List String :=
  if output = "" then []
  else parseCandidatesAux command_lower ignore [] (pySplitLines output)

/-- POSIX `os.path.basename`. -/
def basename (p : String) : String :=
  (splitOnChar '/' p).getLastD ""

/-! ### Environment, exceptions and cache state -/

/-- Python exception classes relevant to the control flow of the module:
`OSError` (caught by the path completer), `ValueError` (caught by the token
splitter) and anything else (caught only by the dispatcher guard). -/
inductive Exn where
  | osError
  | valueError
  | otherError
deriving DecidableEq, Repr

/-- One `os.scandir` entry: its name and the result of `entry.is_dir()`
(`none` models an `OSError` raised by `is_dir`, which the source swallows). -/
structure DirEntry where
  name : String
  isDir : Option Bool
deriving DecidableEq, Repr

/-- External effects consumed by the completion engine.  `runProbe` stands
for one `subprocess.run` under `_build_help_environment`; `none` is any of
the swallowed spawn failures and timeouts, `some (out, err)` the captured
streams.  `expand` is `os.path.expanduser(os.path.expandvars(.))`,
`shlexTokens` is the `shlex` lexer (`none` = `ValueError`). -/
structure Env where
  expand : String → String
  scandir : String → Except Exn (List DirEntry)
  which : String → Option String
  pathExists : String → Bool
  runProbe : String → List String → String → Option (String × String)
  shlexTokens : String → Option (List String)
  pathExecutables : List String
  cwf : String
  osCwd : String

/-- The five module-level caches of `autocomplete.py`. -/
structure ExtState where
  flagCache : List (String × List String)
  posCache : List (String × List String)
  posTree : List (String × TreeMap)
  metaAttempted : List String
  prefixAttempted : List (String × List (List String))
deriving Repr

/-- The caches at interpreter start-up. -/
def initExtState : ExtState :=
  ⟨[], [], [], [], []⟩

/-- A probe event: one `_collect_external_help_output` call (`top`) or one
`_collect_external_prefix_output` call (`ctx`). -/
inductive Probe where
  | top : String → Probe
  | ctx : String → List String → Probe
deriving DecidableEq, Repr

/-- The set `EXTERNAL_PREFIX_ATTEMPTED.get(e, set())`. -/
def prefAtt (s : ExtState) (e : String) : List (List String) :=
  (List.lookup e s.prefixAttempted).getD []

/-! ### Path fragment completion -/

/-- `_split_prefix`: split a fragment at its last slash. -/
def splitFragPre (fragment : String) : String × String :=
  if fragment = "" then ("", "")
  else
    let rev := fragment.data.reverse
    let post := rev.takeWhile (fun c => c ≠ '/')
    if post.length = rev.length then ("", fragment)
    else (⟨(rev.drop post.length).reverse⟩, ⟨post.reverse⟩)

/-- POSIX `os.path.normpath`. -/
def normpath (path : String) : String :=
  if path = "" then "."
  else
    let initialSlashes : Nat :=
      if strStarts path "/" then
        if strStarts path "//" && !(strStarts path "///") then 2 else 1
      else 0
    let comps := splitOnChar '/' path
    let newComps := comps.foldl
      (fun acc comp =>
        if comp = "" || comp = "." then acc
        else if comp ≠ ".." || (initialSlashes = 0 && acc.isEmpty)
            || (!acc.isEmpty && acc.getLastD "" = "..") then acc ++ [comp]
        else if !acc.isEmpty then acc.dropLast
        else acc) []
    let joined := joinWith "/" newComps
    let out : String := ⟨List.replicate initialSlashes '/' ++ joined.data⟩
    if out = "" then "." else out

/-- POSIX `os.path.join` for two components. -/
def joinPath (a b : String) : String :=
  if strStarts b "/" then b
  else if a = "" || strEnds a "/" then a ++ b
  else a ++ "/" ++ b

/-- `_resolve_lookup_dir`. -/
def _resolve_lookup_dir (env : Env) (pre working_dir : String) : String :=
  let expanded := if pre ≠ "" then env.expand pre else ""
  if expanded = "" then working_dir
  else if strStarts expanded "/" then normpath expanded
  else normpath (joinPath working_dir expanded)

/-- `_segment_for_hidden`. -/
def _segment_for_hidden (pre partialName : String) : String :=
  if partialName ≠ "" then partialName
  else
    let trimmed : String := ⟨dropWhileEnd (fun c => c = '/') pre.data⟩
    if trimmed = "" then ""
    else (splitOnChar '/' trimmed).getLastD ""

/-- `_should_include_hidden`. -/
def _should_include_hidden (pre partialName : String) : Bool :=
  strStarts (_segment_for_hidden pre partialName) "."

/-- `_looks_like_path`. -/
def _looks_like_path (fragment : String) : Bool :=
  if fragment = "" then false
  else
    let stripped : String :=
      ⟨fragment.data.dropWhile (fun c => c = Char.ofNat 39 || c = Char.ofNat 34)⟩
    if stripped = "" then false
    else if strStarts stripped "./" || strStarts stripped "../"
        || strStarts stripped "~/" || strStarts stripped "/" then true
    else strHasChar stripped '/' || strStarts stripped "."

/-- `_format_path_candidate`. -/
def _format_path_candidate (unescaped quote_char : String) : String :=
  if quote_char ≠ "" then quote_char ++ unescaped else _escape_fragment unescaped

/-- Loop body of `complete_path` for one directory entry. -/
def pathCandidate (includeHidden : Bool) (pre partialName quote_char : String)
    (e : DirEntry) : Option String :=
  if !includeHidden && strStarts e.name "." then none
  else if !(strStarts e.name partialName) then none
  else
    let cand := pre ++ e.name ++ (if e.isDir = some true then "/" else "")
    some (_format_path_candidate cand quote_char)

/-- Sort key order of `complete_path`: directories (trailing slash) first,
then code-point order. -/
def pathLe (a b : String) : Bool :=
  let ra : Nat := if strEnds a "/" then 0 else 1
  let rb : Nat := if strEnds b "/" then 0 else 1
  if ra < rb then true
  else if rb < ra then false
  else strLe a b

/-- The `try/except OSError` body of `complete_path`, over the `os.scandir`
result. -/
def completePathScan (includeHidden : Bool) (pre partialName quote_char : String)
    (scan : Except Exn (List DirEntry)) : Except Exn (List String) :=
  match scan with
  | .error e => if e = Exn.osError then .ok [] else .error e
  | .ok entries =>
    let candidates := entries.filterMap (pathCandidate includeHidden pre partialName quote_char)
    .ok (sortByLe pathLe (uniquePreservingOrder candidates))

/-- `complete_path`. -/
def complete_path (env : Env) (fragment working_dir : String) :
    Except Exn (List String) :=
  let c0 := fragment.data.headD (Char.ofNat 0)
  let hasQuote := fragment ≠ "" && (c0 = Char.ofNat 39 || c0 = Char.ofNat 34)
  let quote_char : String := if hasQuote then ⟨[c0]⟩ else ""
  let body : String := if hasQuote then ⟨fragment.data.drop 1⟩ else fragment
  let unescaped_body := _unescape_fragment body
  let pp := splitFragPre unescaped_body
  let include_hidden := _should_include_hidden pp.1 pp.2
  let lookup_dir := _resolve_lookup_dir env pp.1 working_dir
  completePathScan include_hidden pp.1 pp.2 quote_char (env.scandir lookup_dir)

/-! ### External probing and metadata caches -/

/-- Switch loop of `_collect_external_help_output`. -/
def collectHelpAux (env : Env) (resolved working_dir : String) : List String → String
  | [] => ""
  | sw :: rest =>
    let argsTail := if sw ≠ "" then [sw] else []
    match env.runProbe resolved argsTail working_dir with
    | none => collectHelpAux env resolved working_dir rest
    | some out =>
      let output := out.1 ++ "\n" ++ out.2
      if pyStrip output ≠ "" then output else collectHelpAux env resolved working_dir rest

/-- `_collect_external_help_output`. -/
def _collect_external_help_output (env : Env) (resolved working_dir : String) : String :=
  collectHelpAux env resolved working_dir EXTERNAL_HELP_SWITCHES

/-- Suffix loop of `_collect_external_prefix_output`. -/
def collectCtxAux (env : Env) (resolved : String) (pfx : List String)
    (working_dir command_lower : String) (ignore : List String) :
    List (List String) → List String
  | [] => []
  | suffix :: rest =>
    match env.runProbe resolved (pfx ++ suffix) working_dir with
    | none => collectCtxAux env resolved pfx working_dir command_lower ignore rest
    | some out =>
      let output := out.1 ++ "\n" ++ out.2
      let tokens := _parse_candidate_words output command_lower ignore
      if !tokens.isEmpty then tokens
      else collectCtxAux env resolved pfx working_dir command_lower ignore rest

/-- `_collect_external_prefix_output` (its Python set as a list). -/
def _collect_external_prefix_output (env : Env) (resolved : String)
    (pfx : List String) (working_dir : String) : List String :=
  let command_lower := strLower (basename resolved)
  let ignore := command_lower :: pfx.map strLower
  collectCtxAux env resolved pfx working_dir command_lower ignore EXTERNAL_CONTEXT_SWITCHES

/-- `_ensure_external_prefix_metadata`.  Returns the candidates together with
the final cache state and the contextual probes issued. -/
def _ensure_external_prefix_metadata (env : Env) (s : ExtState) (resolved : String)
    (pfx : List String) (working_dir : String) : List String × ExtState × List Probe :=
  let s0 := { s with posTree := setd s.posTree resolved [] }
  let tree := (List.lookup resolved s0.posTree).getD []
  match List.lookup pfx tree with
  | some v => (v, s0, [])
  | none =>
    let s1 := { s0 with prefixAttempted := setd s0.prefixAttempted resolved [] }
    let attempted := (List.lookup resolved s1.prefixAttempted).getD []
    if pfx ∈ attempted then ((List.lookup pfx tree).getD [], s1, [])
    else
      let s2 := { s1 with prefixAttempted := aset s1.prefixAttempted resolved (attempted ++ [pfx]) }
      let candidates := _collect_external_prefix_output env resolved pfx working_dir
      let sortedC := if candidates.isEmpty then [] else sortByLe strLe candidates
      let s3 := { s2 with posTree := aset s2.posTree resolved (aset tree pfx sortedC) }
      (sortedC, s3, [Probe.ctx resolved pfx])

/-- `_ensure_external_metadata`. -/
def _ensure_external_metadata (env : Env) (s : ExtState) (resolved working_dir : String) :
    ExtState × List Probe :=
  if (List.lookup resolved s.flagCache).isSome ∧ (List.lookup resolved s.posCache).isSome
      ∧ (List.lookup resolved s.posTree).isSome then
    (s, [])
  else if resolved ∈ s.metaAttempted then
    ({ s with flagCache := setd s.flagCache resolved [],
              posCache := setd s.posCache resolved [],
              posTree := setd s.posTree resolved [] }, [])
  else
    let output := _collect_external_help_output env resolved working_dir
    let s1 := { s with metaAttempted := s.metaAttempted ++ [resolved] }
    if output = "" then
      ({ s1 with flagCache := setd s1.flagCache resolved [],
                 posCache := setd s1.posCache resolved [],
                 posTree := setd s1.posTree resolved [] }, [Probe.top resolved])
    else
      let command_name := basename resolved
      let flags := sortByLe strLe (_extract_flags_from_text output)
      let positional_tokens := _extract_positionals_from_text output command_name
      let tree_sets := _build_positional_tree output command_name
      let rootSet := (List.lookup ([] : List String) tree_sets).getD []
      let positionals := sortByLe strLe (rootSet.foldl insertTok positional_tokens)
      ({ s1 with flagCache := aset s1.flagCache resolved flags,
                 posCache := aset s1.posCache resolved positionals,
                 posTree := aset s1.posTree resolved
                   (tree_sets.map (fun kv => (kv.1, sortByLe strLe kv.2))) },
       [Probe.top resolved])

/-- The triple returned by `_get_external_metadata`. -/
structure ExtMeta where
  flags : List String
  positionals : List String
  tree : TreeMap
deriving Repr

/-- `_get_external_metadata`. -/
def _get_external_metadata (env : Env) (s : ExtState) (resolved working_dir : String) :
    ExtMeta × ExtState × List Probe :=
  let r := _ensure_external_metadata env s resolved working_dir
  (⟨(List.lookup resolved r.1.flagCache).getD [],
    (List.lookup resolved r.1.posCache).getD [],
    (List.lookup resolved r.1.posTree).getD []⟩, r.1, r.2)

/-- `resolve_external_executable`. -/
def resolve_external_executable (env : Env) (command working_dir : String) :
    Option String :=
  let expanded := env.expand command
  if strHasChar command '/' then
    let candidate :=
      if strStarts expanded "/" then normpath expanded
      else normpath (joinPath working_dir expanded)
    if env.pathExists candidate then some candidate else none
  else env.which expanded

/-! ### Completion entry points -/

/-- `complete_first_token`. -/
def complete_first_token (env : Env) (fragment working_dir : String) :
    Except Exn (List String) :=
  if _looks_like_path fragment then complete_path env fragment working_dir
  else
    let fromAliases := ALL_COMMAND_ALIASES.filter (fun a => strStarts a fragment)
    let fromExes :=
      if fragment ≠ "" then env.pathExecutables.filter (fun e => strStarts e fragment)
      else []
    .ok (uniquePreservingOrder (fromAliases ++ fromExes))

/-- `_is_flag_context`. -/
def _is_flag_context (fragment : String) (tokens_before : List String)
    (sp : CommandSpec) : Bool :=
  if sp.flags.isEmpty then false
  else if (tokens_before.drop 1).contains "--" then false
  else strStarts fragment "-"

/-- `_collect_used_flags` (membership-equivalent list model of the set). -/
def _collect_used_flags (sp : CommandSpec) : List String → List String
  | [] => []
  | t :: rest =>
    if t = "--" then []
    else if sp.flags.contains t then t :: _collect_used_flags sp rest
    else _collect_used_flags sp rest

/-- Ancestor prefixes `prefix_tuple[:i]` for `i = len-1, ..., 0`. -/
def parentsOf (pfx : List String) : List (List String) :=
  ((List.range pfx.length).reverse).map (fun i => pfx.take i)

/-- The ancestor fallback loop of `complete_external_command`. -/
def ancestorLoop (env : Env) (resolved working_dir : String) :
    List (List String) → TreeMap → ExtState →
    Option (List String) × ExtState × List Probe
  | [], _, s => (none, s, [])
  | parent :: rest, tree, s =>
    match List.lookup parent tree with
    | some pc =>
      if pc.isEmpty then ancestorLoop env resolved working_dir rest tree s
      else (some pc, s, [])
    | none =>
      let r := _ensure_external_prefix_metadata env s resolved parent working_dir
      let tree2 := (List.lookup resolved r.2.1.posTree).getD []
      if r.1.isEmpty then
        let rr := ancestorLoop env resolved working_dir rest tree2 r.2.1
        (rr.1, rr.2.1, r.2.2 ++ rr.2.2)
      else (some r.1, r.2.1, r.2.2)

/-- The positional stage of `complete_external_command` (everything after the
flag/path shortcuts), starting from the state after `_get_external_metadata`. -/
def externalPositional (env : Env) (s1 : ExtState) (resolved fragment working_dir : String)
    (basePositionals : List String) (tree0 : TreeMap) (prefixTuple : List String) :
    Except Exn (List String) × ExtState × List Probe :=
  let step1 : Option (List String) × TreeMap × ExtState × List Probe :=
    match List.lookup prefixTuple tree0 with
    | some v => (some v, tree0, s1, [])
    | none =>
      let e := _ensure_external_prefix_metadata env s1 resolved prefixTuple working_dir
      let tree2 := (List.lookup resolved e.2.1.posTree).getD []
      if e.1.isEmpty then (List.lookup prefixTuple tree2, tree2, e.2.1, e.2.2)
      else (some e.1, tree2, e.2.1, e.2.2)
  let cand1 := step1.1
  let step2 : Option (List String) × ExtState × List Probe :=
    if (cand1.getD []).isEmpty && !prefixTuple.isEmpty then
      let a := ancestorLoop env resolved working_dir (parentsOf prefixTuple)
        step1.2.1 step1.2.2.1
      (match a.1 with
       | some pc => some pc
       | none => cand1, a.2.1, a.2.2)
    else (cand1, step1.2.2.1, [])
  let candidates :=
    if (step2.1.getD []).isEmpty then basePositionals else step2.1.getD []
  let result : Except Exn (List String) :=
    if candidates.isEmpty then complete_path env fragment working_dir
    else
      let filtered := candidates.filter (fun c => strStarts c fragment)
      if filtered.isEmpty then complete_path env fragment working_dir
      else .ok filtered
  (result, step2.2.1, step1.2.2.2 ++ step2.2.2)

/-- `complete_external_command`. -/
def complete_external_command (env : Env) (s : ExtState) (cmd fragment : String)
    (tokens_before : List String) (working_dir : String) :
    Except Exn (List String) × ExtState × List Probe :=
  match resolve_external_executable env cmd working_dir with
  | none => (complete_path env fragment working_dir, s, [])
  | some resolved =>
    if (tokens_before.drop 1).contains "--" then
      (complete_path env fragment working_dir, s, [])
    else if strStarts fragment "-" then
      let r := _get_external_metadata env s resolved working_dir
      (.ok (r.1.flags.filter (fun f => strStarts f fragment)), r.2.1, r.2.2)
    else if _looks_like_path fragment then
      (complete_path env fragment working_dir, s, [])
    else
      let r := _get_external_metadata env s resolved working_dir
      let prefixTuple := (tokens_before.drop 1).filter (fun tok => !(strStarts tok "-"))
      let ep := externalPositional env r.2.1 resolved fragment working_dir
        r.1.positionals r.1.tree prefixTuple
      (ep.1, ep.2.1, r.2.2 ++ ep.2.2)

/-- `complete_after_command`.  An empty token list would raise `IndexError`
at `tokens_before[0]`, modelled by `otherError`. -/
def complete_after_command (env : Env) (s : ExtState) (fragment : String)
    (tokens_before : List String) (working_dir : String) :
    Except Exn (List String) × ExtState × List Probe :=
  match tokens_before with
  | [] => (.error Exn.otherError, s, [])
  | cmd :: _ =>
    match List.lookup cmd COMMAND_BY_ALIAS with
    | none => complete_external_command env s cmd fragment tokens_before working_dir
    | some sp =>
      if _is_flag_context fragment tokens_before sp then
        let used := _collect_used_flags sp (tokens_before.drop 1)
        (.ok (sp.flags.filter (fun f => strStarts f fragment && !(used.contains f))), s, [])
      else if sp.takes_path then (complete_path env fragment working_dir, s, [])
      else (.ok [], s, [])

/-- `_split_tokens`. -/
def _split_tokens (env : Env) (text : String) : List String :=
  if text = "" then []
  else
    match env.shlexTokens text with
    | some toks => toks
    | none => pySplitWs text

/-- The body of `completer` inside its `try` block: token split plus routing. -/
def completionDispatch (env : Env) (s : ExtState) (buffer : String) (beg : Nat)
    (text : String) : Except Exn (List String) × ExtState × List Probe :=
  let working_dir := if env.cwf ≠ "" then env.cwf else env.osCwd
  let tokens_before := _split_tokens env ⟨buffer.data.take beg⟩
  if tokens_before.isEmpty then (complete_first_token env text working_dir, s, [])
  else complete_after_command env s text tokens_before working_dir

/-- `completer`, up to the final indexing step: the `options` list, with the
`except Exception` guard collapsing any escaped error to `[]`. -/
def completerOptions (env : Env) (s : ExtState) (buffer : String) (beg : Nat)
    (text : String) : List String × ExtState × List Probe :=
  match completionDispatch env s buffer beg text with
  | (.ok l, s2, ev) => (l, s2, ev)
  | (.error _, s2, ev) => ([], s2, ev)

/-- `completer(text, state)`: `options[state]` when in range, else `None`. -/
def completer (env : Env) (s : ExtState) (buffer : String) (beg : Nat)
    (text : String) (state : Nat) : Option String × ExtState × List Probe :=
  let o := completerOptions env s buffer beg text
  (o.1.get? state, o.2.1, o.2.2)

/-- One completion request: the readline buffer, cursor begin index and the
fragment text handed to `completer`. -/
structure Request where
  buffer : String
  beg : Nat
  text : String

/-- Run a sequence of completion requests, threading the caches and
accumulating the probe log. -/
def runAllFrom (env : Env) : ExtState → List Request → ExtState × List Probe
  | s, [] => (s, [])
  | s, r :: rs =>
    let o := completerOptions env s r.buffer r.beg r.text
    let rest := runAllFrom env o.2.1 rs
    (rest.1, o.2.2 ++ rest.2)

/-! ### Order and membership lemmas for the sorting and dedup helpers -/

theorem rankLe_total (ra rb : Nat) (s t : Bool) (hst : s = false → t = true)
    (h : (if ra < rb then true else if rb < ra then false else s) = false) :
    (if rb < ra then true else if ra < rb then false else t) = true := by
  by_cases h1 : ra < rb
  · rw [if_pos h1] at h; simp at h
  · rw [if_neg h1] at h
    by_cases h2 : rb < ra
    · rw [if_pos h2]
    · rw [if_neg h2] at h
      rw [if_neg h2, if_neg h1]
      exact hst h

theorem rankLe_trans (ra rb rc : Nat) (s t u : Bool)
    (hstu : s = true → t = true → u = true)
    (h1 : (if ra < rb then true else if rb < ra then false else s) = true)
    (h2 : (if rb < rc then true else if rc < rb then false else t) = true) :
    (if ra < rc then true else if rc < ra then false else u) = true := by
  by_cases hab : ra < rb
  · by_cases hbc : rb < rc
    · rw [if_pos (show ra < rc by omega)]
    · rw [if_neg hbc] at h2
      by_cases hcb : rc < rb
      · rw [if_pos hcb] at h2; simp at h2
      · rw [if_pos (show ra < rc by omega)]
  · rw [if_neg hab] at h1
    by_cases hba : rb < ra
    · rw [if_pos hba] at h1; simp at h1
    · rw [if_neg hba] at h1
      by_cases hbc : rb < rc
      · rw [if_pos (show ra < rc by omega)]
      · rw [if_neg hbc] at h2
        by_cases hcb : rc < rb
        · rw [if_pos hcb] at h2; simp at h2
        · rw [if_neg hcb] at h2
          rw [if_neg (show ¬ ra < rc by omega), if_neg (show ¬ rc < ra by omega)]
          exact hstu h1 h2

theorem charListLe_total : ∀ as bs, charListLe as bs = false → charListLe bs as = true := by
  intro as
  induction as with
  | nil => intro bs h; simp [charListLe] at h
  | cons a as ih =>
    intro bs h
    cases bs with
    | nil => simp [charListLe]
    | cons b bs =>
      simp only [charListLe] at h ⊢
      exact rankLe_total a.toNat b.toNat _ _ (ih bs) h

theorem charListLe_trans :
    ∀ as bs cs, charListLe as bs = true → charListLe bs cs = true →
      charListLe as cs = true := by
  intro as
  induction as with
  | nil => intro bs cs _ _; simp [charListLe]
  | cons a as ih =>
    intro bs cs h1 h2
    cases bs with
    | nil => simp [charListLe] at h1
    | cons b bs =>
      cases cs with
      | nil => simp [charListLe] at h2
      | cons c cs =>
        simp only [charListLe] at h1 h2 ⊢
        exact rankLe_trans a.toNat b.toNat c.toNat _ _ _ (ih bs cs) h1 h2

theorem strLe_total (a b : String) (h : strLe a b = false) : strLe b a = true :=
  charListLe_total a.data b.data h

theorem strLe_trans (a b c : String) (h1 : strLe a b = true) (h2 : strLe b c = true) :
    strLe a c = true :=
  charListLe_trans a.data b.data c.data h1 h2

theorem pathLe_total (a b : String) (h : pathLe a b = false) : pathLe b a = true := by
  simp only [pathLe] at h ⊢
  exact rankLe_total _ _ _ _ (strLe_total a b) h

theorem pathLe_trans (a b c : String) (h1 : pathLe a b = true) (h2 : pathLe b c = true) :
    pathLe a c = true := by
  simp only [pathLe] at h1 h2 ⊢
  exact rankLe_trans _ _ _ _ _ _ (strLe_trans a b c) h1 h2

theorem mem_insertLe (le : α → α → Bool) (x y : α) :
    ∀ l, y ∈ insertLe le x l ↔ y = x ∨ y ∈ l := by
  intro l
  induction l with
  | nil => simp [insertLe]
  | cons z zs ih =>
    by_cases h : le z x = true
    · simp [insertLe, h, ih]
      tauto
    · simp [insertLe, h]

theorem pairwise_insertLe (le : α → α → Bool)
    (htot : ∀ a b, le a b = false → le b a = true)
    (htrans : ∀ a b c, le a b = true → le b c = true → le a c = true) (x : α) :
    ∀ l, l.Pairwise (fun a b => le a b = true) →
      (insertLe le x l).Pairwise (fun a b => le a b = true) := by
  intro l
  induction l with
  | nil => intro _; simp [insertLe]
  | cons z zs ih =>
    intro hp
    rcases List.pairwise_cons.mp hp with ⟨hz, hzs⟩
    by_cases h : le z x = true
    · simp only [insertLe, h, if_pos]
      refine List.pairwise_cons.mpr ⟨?_, ih hzs⟩
      intro y hy
      rcases (mem_insertLe le x y zs).mp hy with rfl | hmem
      · exact h
      · exact hz y hmem
    · simp only [insertLe, h, if_neg]
      have hxz : le x z = true := htot z x (by simpa using h)
      refine List.pairwise_cons.mpr ⟨?_, hp⟩
      intro y hy
      rcases List.mem_cons.mp hy with rfl | hmem
      · exact hxz
      · exact htrans x z y hxz (hz y hmem)

theorem pairwise_sortAux (le : α → α → Bool)
    (htot : ∀ a b, le a b = false → le b a = true)
    (htrans : ∀ a b c, le a b = true → le b c = true → le a c = true) :
    ∀ (l acc : List α), acc.Pairwise (fun a b => le a b = true) →
      (l.foldl (fun a x => insertLe le x a) acc).Pairwise (fun a b => le a b = true) := by
  intro l
  induction l with
  | nil => intro acc h; simpa using h
  | cons x xs ih =>
    intro acc h
    simp only [List.foldl_cons]
    exact ih _ (pairwise_insertLe le htot htrans x acc h)

theorem pairwise_sortByLe (le : α → α → Bool)
    (htot : ∀ a b, le a b = false → le b a = true)
    (htrans : ∀ a b c, le a b = true → le b c = true → le a c = true) (l : List α) :
    (sortByLe le l).Pairwise (fun a b => le a b = true) :=
  pairwise_sortAux le htot htrans l [] (by simp)

theorem mem_upoAux (x : String) :
    ∀ l seen, x ∈ upoAux seen l ↔ x ∈ l ∧ ¬ x ∈ seen := by
  intro l
  induction l with
  | nil => intro seen; simp [upoAux]
  | cons v rest ih =>
    intro seen
    cases hc : seen.contains v with
    | true =>
      have hv : v ∈ seen := by simpa using hc
      have heq : upoAux seen (v :: rest) = upoAux seen rest := by
        simp [upoAux, hv]
      rw [heq, ih]
      constructor
      · rintro ⟨h1, h2⟩; exact ⟨List.mem_cons.mpr (Or.inr h1), h2⟩
      · rintro ⟨h1, h2⟩
        rcases List.mem_cons.mp h1 with rfl | h3
        · exact absurd hv h2
        · exact ⟨h3, h2⟩
    | false =>
      have hv : ¬ v ∈ seen := by
        intro hmem
        have : seen.contains v = true := by simpa using hmem
        rw [hc] at this
        exact Bool.false_ne_true this
      have heq : upoAux seen (v :: rest) = v :: upoAux (v :: seen) rest := by
        simp [upoAux, hv]
      rw [heq]
      constructor
      · intro h1
        rcases List.mem_cons.mp h1 with rfl | h3
        · exact ⟨List.mem_cons.mpr (Or.inl rfl), hv⟩
        · rcases (ih (v :: seen)).mp h3 with ⟨h4, h5⟩
          exact ⟨List.mem_cons.mpr (Or.inr h4),
            fun h6 => h5 (List.mem_cons.mpr (Or.inr h6))⟩
      · rintro ⟨h1, h2⟩
        rcases List.mem_cons.mp h1 with rfl | h3
        · exact List.mem_cons.mpr (Or.inl rfl)
        · by_cases hxv : x = v
          · exact List.mem_cons.mpr (Or.inl hxv)
          · refine List.mem_cons.mpr (Or.inr ((ih (v :: seen)).mpr ⟨h3, ?_⟩))
            intro h4
            rcases List.mem_cons.mp h4 with h5 | h5
            · exact hxv h5
            · exact h2 h5

theorem mem_uniquePreservingOrder (x : String) (l : List String) :
    x ∈ uniquePreservingOrder l ↔ x ∈ l := by
  simp [uniquePreservingOrder, mem_upoAux]

/-! ### Association-list lemmas for the caches -/

theorem lookup_aset_self [BEq α] [LawfulBEq α] (k : α) (v : β) :
    ∀ m : List (α × β), List.lookup k (aset m k v) = some v := by
  intro m
  induction m with
  | nil => simp [aset]
  | cons kv rest ih =>
    obtain ⟨k1, v1⟩ := kv
    by_cases h : k1 = k
    · simp [aset, h]
    · have hb : (k1 == k) = false := by simpa using h
      have hq : (k == k1) = false := by
        simp only [beq_eq_false_iff_ne, ne_eq]
        exact fun hEq => h hEq.symm
      simp [aset, hb, List.lookup_cons, hq, ih]

theorem lookup_aset_ne [BEq α] [LawfulBEq α] (k q : α) (v : β) (hne : ¬ q = k) :
    ∀ m : List (α × β), List.lookup q (aset m k v) = List.lookup q m := by
  intro m
  have hq : (q == k) = false := by simpa using hne
  induction m with
  | nil => simp [aset, hq, hne]
  | cons kv rest ih =>
    obtain ⟨k1, v1⟩ := kv
    by_cases h : k1 = k
    · have hb : (k1 == k) = true := by simpa using h
      have hq1 : (q == k1) = false := by
        simp only [beq_eq_false_iff_ne, ne_eq]
        exact fun hEq => hne (h ▸ hEq)
      simp [aset, hb, List.lookup_cons, hq, hq1]
    · have hb : (k1 == k) = false := by simpa using h
      simp only [aset, hb, if_neg]
      cases hq1 : (q == k1) with
      | true => simp [List.lookup_cons, hq1]
      | false => simp [List.lookup_cons, hq1, ih]

theorem lookup_append_none [BEq α] (q : α) (m1 m2 : List (α × β))
    (h : List.lookup q m1 = none) :
    List.lookup q (m1 ++ m2) = List.lookup q m2 := by
  induction m1 with
  | nil => simp
  | cons kv rest ih =>
    obtain ⟨k1, v1⟩ := kv
    simp only [List.lookup_cons, List.cons_append] at h ⊢
    cases hq : (q == k1) with
    | true => rw [hq] at h; simp at h
    | false => rw [hq] at h; simp at h ⊢; exact ih h

theorem lookup_append_some [BEq α] (q : α) (m1 m2 : List (α × β)) (w : β)
    (h : List.lookup q m1 = some w) :
    List.lookup q (m1 ++ m2) = some w := by
  induction m1 with
  | nil => simp at h
  | cons kv rest ih =>
    obtain ⟨k1, v1⟩ := kv
    simp only [List.lookup_cons, List.cons_append] at h ⊢
    cases hq : (q == k1) with
    | true => rw [hq] at h; simp at h ⊢; exact h
    | false => rw [hq] at h; simp at h ⊢; exact ih h

theorem lookup_setd_ne [BEq α] [LawfulBEq α] (k q : α) (v : β) (hne : ¬ q = k)
    (m : List (α × β)) : List.lookup q (setd m k v) = List.lookup q m := by
  unfold setd
  cases h : List.lookup k m with
  | some w => rfl
  | none =>
    cases h2 : List.lookup q m with
    | some w => exact lookup_append_some q m [(k, v)] w h2
    | none =>
      rw [lookup_append_none q m [(k, v)] h2]
      have hq : (q == k) = false := by simpa using hne
      simp [List.lookup_cons, hq]

theorem lookup_setd_self [BEq α] [LawfulBEq α] (k : α) (v : β) (m : List (α × β)) :
    List.lookup k (setd m k v) = some ((List.lookup k m).getD v) := by
  unfold setd
  cases h : List.lookup k m with
  | some w => simpa using h
  | none =>
    rw [lookup_append_none k m [(k, v)] h]
    simp

/-! ### Claims about the path completer and the help-text heuristics -/

theorem completePathScan_sorted (includeHidden : Bool) (pre partialName quote_char : String)
    (scan : Except Exn (List DirEntry)) (l : List String)
    (h : completePathScan includeHidden pre partialName quote_char scan = .ok l) :
    l.Pairwise (fun a b => pathLe a b = true) := by
  cases scan with
  | error e =>
    simp only [completePathScan] at h
    by_cases he : e = Exn.osError
    · rw [if_pos he] at h
      injection h with h2
      rw [← h2]
      exact List.Pairwise.nil
    · rw [if_neg he] at h
      simp at h
  | ok entries =>
    simp only [completePathScan] at h
    injection h with h2
    rw [← h2]
    exact pairwise_sortByLe pathLe pathLe_total pathLe_trans _

/-- A concrete filesystem: the working directory of the C5 scenario holds a
regular file `apple`, a directory `Banana` and a hidden file `.hidden`. -/
def envC5 : Env :=
  { expand := fun s => s
    scandir := fun d =>
      if d = "/home" then
        .ok [⟨"apple", some false⟩, ⟨"Banana", some true⟩, ⟨".hidden", some false⟩]
      else .error Exn.osError
    which := fun _ => none
    pathExists := fun _ => false
    runProbe := fun _ _ _ => none
    shlexTokens := fun _ => none
    pathExecutables := []
    cwf := "/home"
    osCwd := "/home" }

/-- C5: over a lookup directory holding the file `apple`, the directory
`Banana` and the hidden file `.hidden`, completing the empty fragment yields
exactly `["Banana/", "apple"]` and completing `"."` yields `[".hidden"]`;
in general a hidden entry is skipped whenever the final typed segment does
not begin with a dot, and every result list of `complete_path` is ordered
directories first, then files, code-point order within each group. -/
theorem c5_path_completion :
    complete_path envC5 "" "/home" = .ok ["Banana/", "apple"] ∧
    complete_path envC5 "." "/home" = .ok [".hidden"] ∧
    (∀ pre partialName quote_char e, _should_include_hidden pre partialName = false →
      strStarts e.name "." = true →
      pathCandidate (_should_include_hidden pre partialName) pre partialName quote_char e
        = none) ∧
    (∀ env frag wd l, complete_path env frag wd = .ok l →
      l.Pairwise (fun a b => pathLe a b = true)) := by
  refine ⟨by rfl, by rfl, ?_, ?_⟩
  · intro pre partialName quote_char e h1 h2
    rw [h1]
    simp [pathCandidate, h2]
  · intro env frag wd l h
    unfold complete_path at h
    exact completePathScan_sorted _ _ _ _ _ _ h

/-- Witness instantiating the hypotheses of `c5_path_completion`. -/
theorem c5_witness :
    _should_include_hidden "" "" = false ∧ strStarts ".secret" "." = true ∧
    pathCandidate (_should_include_hidden "" "") "" "" "" ⟨".secret", some false⟩ = none ∧
    (["Banana/", "apple"].Pairwise (fun a b => pathLe a b = true)) :=
  ⟨rfl, rfl,
   c5_path_completion.2.2.1 "" "" "" ⟨".secret", some false⟩ rfl rfl,
   c5_path_completion.2.2.2 envC5 "" "/home" ["Banana/", "apple"] c5_path_completion.1⟩

/-- The help text of the C6 scenario. -/
def c6HelpText : String :=
  "--verbose, -v  Enable verbose output\nUsage: tool [-x] <file>"

/-- C6: flag extraction on the two-line help text returns exactly the set
containing `-v`, `--verbose` and `-x`: `<file>` is not extracted, `-v` is
not re-matched inside `--verbose`, and no returned flag carries trailing
punctuation. -/
theorem c6_flag_extraction :
    _extract_flags_from_text c6HelpText = ["--verbose", "-v", "-x"] ∧
    (∀ f, f ∈ _extract_flags_from_text c6HelpText ↔
      f = "-v" ∨ f = "--verbose" ∨ f = "-x") := by
  refine ⟨by rfl, ?_⟩
  intro f
  rw [(by rfl : _extract_flags_from_text c6HelpText = ["--verbose", "-v", "-x"])]
  simp only [List.mem_cons, List.not_mem_nil, or_false]
  tauto

/-- C8: help-token normalization rejects the all-caps metavariable `FILE`,
the one-character token `a` and the hyphen-led `--bad`, and trims the
trailing period from `sub-command.`. -/
theorem c8_normalization :
    _normalize_help_token "FILE" "tool" = none ∧
    _normalize_help_token "a" "tool" = none ∧
    _normalize_help_token "--bad" "tool" = none ∧
    _normalize_help_token "sub-command." "tool" = some "sub-command" :=
  ⟨rfl, rfl, rfl, rfl⟩

/-! ### The positional-extraction cap (C4) -/

theorem length_insertTok_le (acc : List String) (n : String) :
    (insertTok acc n).length ≤ acc.length + 1 := by
  unfold insertTok
  by_cases h : n ∈ acc <;> simp [h]

theorem length_foldl_insert_le (f : String → Option String) :
    ∀ (parts : List String) (acc : List String),
      (parts.foldl (fun a part =>
        match f part with
        | some n => insertTok a n
        | none => a) acc).length ≤ acc.length + parts.length := by
  intro parts
  induction parts with
  | nil => intro acc; simp
  | cons p ps ih =>
    intro acc
    simp only [List.foldl_cons, List.length_cons]
    have step :
        (match f p with
          | some n => insertTok acc n
          | none => acc).length ≤ acc.length + 1 := by
      cases f p with
      | none => simp
      | some n => simpa using length_insertTok_le acc n
    have := ih (match f p with | some n => insertTok acc n | none => acc)
    omega

theorem length_dropCmdHead_le (cl : String) (l : List String) :
    (dropCmdHead cl l).length ≤ l.length := by
  cases l with
  | nil => simp [dropCmdHead]
  | cons p rest =>
    by_cases h : strLower p = cl <;> simp [dropCmdHead, h]

theorem extractPosLine_le (cl : String) (acc : List String) (stripped : String) :
    (extractPosLine cl acc stripped).length ≤ acc.length + (pySplitWs stripped).length := by
  unfold extractPosLine
  have h1 := length_foldl_insert_le (fun part => _normalize_help_token part cl)
    (dropCmdHead cl (pySplitWs stripped)) acc
  have h2 := length_dropCmdHead_le cl (pySplitWs stripped)
  omega

theorem extractPosAux_le (cl : String) (k : Nat) :
    ∀ (lines : List String) (acc : List String),
      (∀ l ∈ lines, (pySplitWs (pyStrip l)).length ≤ k) →
      acc.length ≤ 127 →
      (extractPosAux cl acc lines).length ≤ 127 + k := by
  intro lines
  induction lines with
  | nil =>
    intro acc _ h2
    simp only [extractPosAux]
    omega
  | cons line rest ih =>
    intro acc h1 h2
    have hline : (pySplitWs (pyStrip line)).length ≤ k :=
      h1 line (List.mem_cons.mpr (Or.inl rfl))
    have hrest : ∀ l ∈ rest, (pySplitWs (pyStrip l)).length ≤ k :=
      fun l hl => h1 l (List.mem_cons.mpr (Or.inr hl))
    simp only [extractPosAux]
    by_cases hs : pyStrip line = ""
    · rw [if_pos hs]
      exact ih acc hrest h2
    · rw [if_neg hs]
      by_cases hu : (strStarts (strLower (pyStrip line)) "usage"
          || strStarts (strLower (pyStrip line)) "synopsis") = true
      · rw [if_pos hu]
        exact ih acc hrest h2
      · rw [if_neg hu]
        by_cases hd : strStarts (pyStrip line) "-" = true
        · rw [if_pos hd]
          exact ih acc hrest h2
        · rw [if_neg hd]
          by_cases hc : (strEnds (pyStrip line) ":"
              && !(strHasChar (pyStrip line) ' ')) = true
          · rw [if_pos hc]
            exact ih acc hrest h2
          · rw [if_neg hc]
            have hb : (extractPosLine cl acc (pyStrip line)).length ≤ 127 + k := by
              have := extractPosLine_le cl acc (pyStrip line)
              omega
            by_cases hcap : 128 ≤ (extractPosLine cl acc (pyStrip line)).length
            · rw [if_pos hcap]
              exact hb
            · rw [if_neg hcap]
              exact ih (extractPosLine cl acc (pyStrip line)) hrest (by omega)

/-- A single pathological help line: 130 distinct two-letter tokens. -/
def c4PathologicalHelp : String :=
  "aa ab ac ad ae af ag ah ai aj ak al am an ao ap aq ar as at au av aw ax ay az ba bb bc bd be bf bg bh bi bj bk bl bm bn bo bp bq br bs bt bu bv bw bx by bz ca cb cc cd ce cf cg ch ci cj ck cl cm cn co cp cq cr cs ct cu cv cw cx cy cz da db dc dd de df dg dh di dj dk dl dm dn do dp dq dr ds dt du dv dw dx dy dz ea eb ec ed ee ef eg eh ei ej ek el em en eo ep eq er es et eu ev ew ex ey ez"

set_option maxRecDepth 20000 in
/-- C4 counterexample: the `>= 128` cap of `_extract_positionals_from_text`
is only checked between lines, so one long line pushes the extracted set to
130 tokens, exceeding the claimed bound of 128. -/
theorem c4_cap_counterexample :
    ¬ ((_extract_positionals_from_text c4PathologicalHelp "tool").length ≤ 128) ∧
    (_extract_positionals_from_text c4PathologicalHelp "tool").length = 130 := by
  have h130 : (_extract_positionals_from_text c4PathologicalHelp "tool").length = 130 := by
    rfl
  constructor
  · rw [h130]; omega
  · exact h130

/-- C4 (amended): the cap is enforced only between lines — before each
processed line the set holds at most 127 tokens, so whenever every line of
the help text splits into at most `k` whitespace-separated words the
extracted set has at most `127 + k` tokens; a single line may therefore
push the result past 128. -/
theorem c4_cap_amended (output command_name : String) (k : Nat)
    (h : ∀ line ∈ pySplitLines output, (pySplitWs (pyStrip line)).length ≤ k) :
    (_extract_positionals_from_text output command_name).length ≤ 127 + k := by
  unfold _extract_positionals_from_text
  by_cases ho : output = ""
  · rw [if_pos ho]; simp
  · rw [if_neg ho]
    exact extractPosAux_le (strLower command_name) k (pySplitLines output) [] h (by simp)

/-- Witness instantiating the hypothesis of `c4_cap_amended`. -/
theorem c4_witness :
    (∀ line ∈ pySplitLines "foo bar", (pySplitWs (pyStrip line)).length ≤ 2) ∧
    (_extract_positionals_from_text "foo bar" "tool").length ≤ 127 + 2 :=
  ⟨by decide, c4_cap_amended "foo bar" "tool" 2 (by decide)⟩

/-! ### First-token completion (C3) -/

/-- An environment whose oracles all fail or return nothing. -/
def envTriv : Env :=
  { expand := fun s => s
    scandir := fun _ => .error Exn.osError
    which := fun _ => none
    pathExists := fun _ => false
    runProbe := fun _ _ _ => none
    shlexTokens := fun _ => none
    pathExecutables := []
    cwf := "/"
    osCwd := "/" }

/-- An executable index holding only `zig`. -/
def envZ : Env :=
  { envTriv with pathExecutables := ["zig"] }

/-- C3 counterexample: for the empty fragment the executable index is not
consulted at all — `zig` is in the index and starts with the empty fragment,
yet only the built-in aliases are returned. -/
theorem c3_counterexample :
    "zig" ∈ envZ.pathExecutables ∧ strStarts "zig" "" = true ∧
    _looks_like_path "" = false ∧
    complete_first_token envZ "" "/" =
      .ok ["ashell", "cd", "clear", "dir", "exit", "goto", "help", "ls", "micro",
           "mkdir", "reload", "rm", "touch"] ∧
    ¬ "zig" ∈ ["ashell", "cd", "clear", "dir", "exit", "goto", "help", "ls", "micro",
           "mkdir", "reload", "rm", "touch"] := by
  refine ⟨by decide, rfl, rfl, by rfl, by decide⟩

/-- C3 (amended): for the empty fragment only the built-in aliases are
returned; for every non-empty fragment that does not look like a path the
result is the duplicate-free union of matching aliases and matching
executable-index entries in order, and in particular every index entry
starting with the fragment appears. -/
theorem c3_first_token_union :
    (∀ env wd, complete_first_token env "" wd = .ok ALL_COMMAND_ALIASES) ∧
    (∀ (env : Env) (fragment wd : String), fragment ≠ "" →
      _looks_like_path fragment = false →
      complete_first_token env fragment wd =
        .ok (uniquePreservingOrder
          (ALL_COMMAND_ALIASES.filter (fun a => strStarts a fragment) ++
           env.pathExecutables.filter (fun e => strStarts e fragment))) ∧
      ∀ e ∈ env.pathExecutables, strStarts e fragment = true →
        e ∈ uniquePreservingOrder
          (ALL_COMMAND_ALIASES.filter (fun a => strStarts a fragment) ++
           env.pathExecutables.filter (fun e => strStarts e fragment))) := by
  constructor
  · intro env wd
    rfl
  · intro env fragment wd h1 h2
    constructor
    · unfold complete_first_token
      rw [h2]
      simp [h1]
    · intro e he hstart
      rw [mem_uniquePreservingOrder]
      refine List.mem_append.mpr (Or.inr ?_)
      simp only [List.mem_filter]
      exact ⟨he, hstart⟩

/-- An executable index holding only `python3`. -/
def envPy : Env :=
  { envTriv with pathExecutables := ["python3"] }

/-- Witness instantiating the hypotheses of `c3_first_token_union`. -/
theorem c3_witness :
    ("py" ≠ "") ∧ _looks_like_path "py" = false ∧
    (complete_first_token envPy "py" "/" =
      .ok (uniquePreservingOrder
        (ALL_COMMAND_ALIASES.filter (fun a => strStarts a "py") ++
         envPy.pathExecutables.filter (fun e => strStarts e "py"))) ∧
     ∀ e ∈ envPy.pathExecutables, strStarts e "py" = true →
       e ∈ uniquePreservingOrder
         (ALL_COMMAND_ALIASES.filter (fun a => strStarts a "py") ++
          envPy.pathExecutables.filter (fun e => strStarts e "py"))) :=
  ⟨by decide, rfl, c3_first_token_union.2 envPy "py" "/" (by decide) rfl⟩

/-! ### The end-of-options marker (C10) -/

/-- C10: as soon as a literal `--` appears among the tokens after a
resolvable external command, completion is pure filesystem path completion:
the cache state is untouched and no probe of any kind is issued. -/
theorem c10_double_dash (env : Env) (s : ExtState) (cmd fragment : String)
    (tokens_before : List String) (working_dir resolved : String)
    (h1 : resolve_external_executable env cmd working_dir = some resolved)
    (h2 : "--" ∈ tokens_before.drop 1) :
    complete_external_command env s cmd fragment tokens_before working_dir =
      (complete_path env fragment working_dir, s, []) := by
  unfold complete_external_command
  rw [h1]
  have h3 : "--" ∈ tokens_before.tail := by
    simpa [List.drop_one] using h2
  simp [h3]

/-- An environment resolving every bare command to `/bin/tool`. -/
def envW : Env :=
  { envTriv with which := fun _ => some "/bin/tool" }

/-- Witness instantiating the hypotheses of `c10_double_dash`. -/
theorem c10_witness :
    resolve_external_executable envW "tool" "/" = some "/bin/tool" ∧
    "--" ∈ (["tool", "--"].drop 1) ∧
    complete_external_command envW initExtState "tool" "" ["tool", "--"] "/" =
      (complete_path envW "" "/", initExtState, []) :=
  ⟨rfl, by decide,
   c10_double_dash envW initExtState "tool" "" ["tool", "--"] "/" "/bin/tool" rfl
     (by decide)⟩

/-! ### Ancestor fallback of the positional tree (C7) -/

/-- The environment of the C7 scenarios: `tool` resolves to `/bin/tool`,
every contextual probe fails (yields no candidates) and the working
directory `/w` holds a single file. -/
def envC7 : Env :=
  { envTriv with
    which := fun c => if c = "tool" then some "/bin/tool" else none
    scandir := fun d => if d = "/w" then .ok [⟨"f.txt", some false⟩]
      else .error Exn.osError
    cwf := "/w"
    osCwd := "/w" }

/-- Caches with tree entries only at `()` and `("add",)`. -/
def sC7A : ExtState :=
  ⟨[("/bin/tool", [])], [("/bin/tool", [])],
   [("/bin/tool", [([], ["add", "remove"]), (["add"], ["group", "user"])])], [], []⟩

/-- Caches with an empty tree root and non-empty root positionals. -/
def sC7B : ExtState :=
  ⟨[("/bin/tool", [])], [("/bin/tool", ["alpha", "beta"])],
   [("/bin/tool", [([], [])])], [], []⟩

/-- Caches with an empty tree root and empty root positionals. -/
def sC7C : ExtState :=
  ⟨[("/bin/tool", [])], [("/bin/tool", [])], [("/bin/tool", [([], [])])], [], []⟩

theorem ancestorLoop_cached (env : Env) (resolved wd : String) :
    ∀ (parents : List (List String)) (tree : TreeMap) (s : ExtState),
      (∀ par ∈ parents, (List.lookup par tree).isSome) →
      ancestorLoop env resolved wd parents tree s =
        ((parents.map (fun par => (List.lookup par tree).getD [])).find?
          (fun v => !v.isEmpty), s, []) := by
  intro parents
  induction parents with
  | nil => intro tree s _; rfl
  | cons par rest ih =>
    intro tree s h
    have hpar := h par (List.mem_cons.mpr (Or.inl rfl))
    rcases ho : List.lookup par tree with _ | v
    · rw [ho] at hpar; simp at hpar
    · simp only [ancestorLoop, ho]
      by_cases hv : v.isEmpty = true
      · rw [if_pos hv, ih tree s (fun q hq => h q (List.mem_cons.mpr (Or.inr hq)))]
        simp [List.find?, ho, hv]
      · rw [if_neg hv]
        simp [List.find?, ho, hv]

/-- C7: with tree entries only at `()` and `("add",)` and a contextual probe
for `("add", "group")` that yields nothing, completion returns the
candidates registered at `("add",)` after exactly one contextual probe;
when every ancestor is empty the root positionals are used, and when those
are empty too the result falls back to filesystem path completion.  The
ancestors are visited longest first, and over cached ancestors the walk
returns the first non-empty entry without issuing any probe. -/
theorem c7_ancestor_fallback :
    (complete_external_command envC7 sC7A "tool" "" ["tool", "add", "group"] "/w").1 =
      .ok ["group", "user"] ∧
    (complete_external_command envC7 sC7A "tool" "" ["tool", "add", "group"] "/w").2.2 =
      [Probe.ctx "/bin/tool" ["add", "group"]] ∧
    (complete_external_command envC7 sC7B "tool" "" ["tool", "add", "group"] "/w").1 =
      .ok ["alpha", "beta"] ∧
    (complete_external_command envC7 sC7B "tool" "" ["tool", "add", "group"] "/w").2.2 =
      [Probe.ctx "/bin/tool" ["add", "group"], Probe.ctx "/bin/tool" ["add"]] ∧
    (complete_external_command envC7 sC7C "tool" "" ["tool", "add", "group"] "/w").1 =
      .ok ["f.txt"] ∧
    parentsOf ["add", "group"] = [["add"], []] ∧
    (∀ (env : Env) (resolved wd : String) (parents : List (List String))
      (tree : TreeMap) (s : ExtState),
      (∀ par ∈ parents, (List.lookup par tree).isSome) →
      ancestorLoop env resolved wd parents tree s =
        ((parents.map (fun par => (List.lookup par tree).getD [])).find?
          (fun v => !v.isEmpty), s, [])) :=
  ⟨rfl, rfl, rfl, rfl, rfl, rfl,
   fun env resolved wd parents tree s h => ancestorLoop_cached env resolved wd parents tree s h⟩

/-- Witness instantiating the hypothesis of the cached-ancestor-walk part of
`c7_ancestor_fallback`. -/
theorem c7_witness :
    (∀ par ∈ [([] : List String)], (List.lookup par [(([] : List String), ["x"])]).isSome) ∧
    ancestorLoop envC7 "/bin/tool" "/w" [[]] [(([] : List String), ["x"])] sC7A =
      (([[]].map (fun par =>
        (List.lookup par [(([] : List String), ["x"])]).getD [])).find?
          (fun v => !v.isEmpty), sC7A, []) :=
  ⟨by decide,
   c7_ancestor_fallback.2.2.2.2.2.2 envC7 "/bin/tool" "/w" [[]]
     [(([] : List String), ["x"])] sC7A (by decide)⟩

/-! ### The dispatcher guard (C2) -/

/-- C2: the completion entry point is total — for every environment
(including failing filesystems, lexer errors, timed-out or garbage-producing
probes), buffer, cursor and fragment it returns a plain candidate list:
either the inner resolution succeeded and its list is returned unchanged, or
the inner resolution raised and the guard returns the empty list. -/
theorem c2_never_raises (env : Env) (s : ExtState) (buffer : String) (beg : Nat)
    (text : String) :
    (∃ l, (completionDispatch env s buffer beg text).1 = .ok l ∧
      (completerOptions env s buffer beg text).1 = l) ∨
    ((∃ err, (completionDispatch env s buffer beg text).1 = .error err) ∧
      (completerOptions env s buffer beg text).1 = []) := by
  rcases h : completionDispatch env s buffer beg text with ⟨r, s2, ev⟩
  cases r with
  | ok l => exact Or.inl ⟨l, rfl, by simp [completerOptions, h]⟩
  | error err => exact Or.inr ⟨⟨err, rfl⟩, by simp [completerOptions, h]⟩

/-! ### Probe accounting (C1)

`ProbeOk s l s2` says that the step from cache state `s` to `s2` which
logged the probes `l` respects the attempted-set discipline: attempted marks
only grow, a top-level (resp. contextual) probe appears at most once, never
for an already-marked executable (resp. prefix), and any probed key is
marked afterwards. -/

structure ProbeOk (s : ExtState) (l : List Probe) (s2 : ExtState) : Prop where
  monoTop : ∀ e, e ∈ s.metaAttempted → e ∈ s2.metaAttempted
  monoCtx : ∀ e p, p ∈ prefAtt s e → p ∈ prefAtt s2 e
  topLe : ∀ e, List.count (Probe.top e) l ≤ 1
  topZero : ∀ e, e ∈ s.metaAttempted → List.count (Probe.top e) l = 0
  topMark : ∀ e, 1 ≤ List.count (Probe.top e) l → e ∈ s2.metaAttempted
  ctxLe : ∀ e p, List.count (Probe.ctx e p) l ≤ 1
  ctxZero : ∀ e p, p ∈ prefAtt s e → List.count (Probe.ctx e p) l = 0
  ctxMark : ∀ e p, 1 ≤ List.count (Probe.ctx e p) l → p ∈ prefAtt s2 e

theorem count_probe_single (p q : Probe) : List.count p [q] = if q = p then 1 else 0 := by
  by_cases h : q = p
  · simp [h]
  · have hb : (q == p) = false := by simpa using h
    simp [List.count_cons, hb, h]

theorem probeOk_nil (s s2 : ExtState)
    (hm : ∀ e, e ∈ s.metaAttempted → e ∈ s2.metaAttempted)
    (hp : ∀ e p, p ∈ prefAtt s e → p ∈ prefAtt s2 e) : ProbeOk s [] s2 := by
  refine ⟨hm, hp, ?_, ?_, ?_, ?_, ?_, ?_⟩
  · intro e; simp
  · intro e _; simp
  · intro e h; simp at h
  · intro e p; simp
  · intro e p _; simp
  · intro e p h; simp at h

theorem probeOk_refl (s : ExtState) : ProbeOk s [] s :=
  probeOk_nil s s (fun _ he => he) (fun _ _ hp => hp)

theorem probeOk_comp {s s1 s2 : ExtState} {l1 l2 : List Probe}
    (h1 : ProbeOk s l1 s1) (h2 : ProbeOk s1 l2 s2) : ProbeOk s (l1 ++ l2) s2 := by
  refine ⟨?_, ?_, ?_, ?_, ?_, ?_, ?_, ?_⟩
  · exact fun e he => h2.monoTop e (h1.monoTop e he)
  · exact fun e p hp => h2.monoCtx e p (h1.monoCtx e p hp)
  · intro e
    rw [List.count_append]
    rcases Nat.eq_zero_or_pos (List.count (Probe.top e) l1) with hz | hpos
    · rw [hz]; simpa using h2.topLe e
    · have hz2 : List.count (Probe.top e) l2 = 0 :=
        h2.topZero e (h1.topMark e hpos)
      rw [hz2]
      simpa using h1.topLe e
  · intro e he
    rw [List.count_append, h1.topZero e he, h2.topZero e (h1.monoTop e he)]
  · intro e h
    rw [List.count_append] at h
    rcases Nat.eq_zero_or_pos (List.count (Probe.top e) l2) with hz | hpos
    · rw [hz, Nat.add_zero] at h
      exact h2.monoTop e (h1.topMark e h)
    · exact h2.topMark e hpos
  · intro e p
    rw [List.count_append]
    rcases Nat.eq_zero_or_pos (List.count (Probe.ctx e p) l1) with hz | hpos
    · rw [hz]; simpa using h2.ctxLe e p
    · have hz2 : List.count (Probe.ctx e p) l2 = 0 :=
        h2.ctxZero e p (h1.ctxMark e p hpos)
      rw [hz2]
      simpa using h1.ctxLe e p
  · intro e p hp
    rw [List.count_append, h1.ctxZero e p hp, h2.ctxZero e p (h1.monoCtx e p hp)]
  · intro e p h
    rw [List.count_append] at h
    rcases Nat.eq_zero_or_pos (List.count (Probe.ctx e p) l2) with hz | hpos
    · rw [hz, Nat.add_zero] at h
      exact h2.monoCtx e p (h1.ctxMark e p h)
    · exact h2.ctxMark e p hpos

theorem probeOk_single_top (s s2 : ExtState) (resolved : String)
    (hat : ¬ resolved ∈ s.metaAttempted)
    (hm : s2.metaAttempted = s.metaAttempted ++ [resolved])
    (hp : ∀ e, prefAtt s2 e = prefAtt s e) :
    ProbeOk s [Probe.top resolved] s2 := by
  refine ⟨?_, ?_, ?_, ?_, ?_, ?_, ?_, ?_⟩
  · intro e he; rw [hm]; exact List.mem_append.mpr (Or.inl he)
  · intro e p hpp; rw [hp e]; exact hpp
  · intro e
    rw [count_probe_single]
    by_cases h : Probe.top resolved = Probe.top e <;> simp [h]
  · intro e he
    rw [count_probe_single]
    by_cases h : Probe.top resolved = Probe.top e
    · injection h with h2
      exact absurd (h2 ▸ he) hat
    · rw [if_neg h]
  · intro e h
    rw [count_probe_single] at h
    by_cases h2 : Probe.top resolved = Probe.top e
    · injection h2 with h3
      rw [hm, ← h3]
      exact List.mem_append.mpr (Or.inr (List.mem_singleton.mpr rfl))
    · rw [if_neg h2] at h; omega
  · intro e p
    rw [count_probe_single]
    simp
  · intro e p _
    rw [count_probe_single]
    simp
  · intro e p h
    rw [count_probe_single] at h
    simp at h

theorem probeOk_single_ctx (s s2 : ExtState) (resolved : String) (pfx : List String)
    (hat : ¬ pfx ∈ prefAtt s resolved)
    (hm : s2.metaAttempted = s.metaAttempted)
    (hsup : ∀ e p, p ∈ prefAtt s e → p ∈ prefAtt s2 e)
    (hmark : pfx ∈ prefAtt s2 resolved) :
    ProbeOk s [Probe.ctx resolved pfx] s2 := by
  refine ⟨?_, ?_, ?_, ?_, ?_, ?_, ?_, ?_⟩
  · intro e he; rw [hm]; exact he
  · exact hsup
  · intro e
    rw [count_probe_single]
    simp
  · intro e _
    rw [count_probe_single]
    simp
  · intro e h
    rw [count_probe_single] at h
    simp at h
  · intro e p
    rw [count_probe_single]
    by_cases h : Probe.ctx resolved pfx = Probe.ctx e p <;> simp [h]
  · intro e p hpp
    rw [count_probe_single]
    by_cases h : Probe.ctx resolved pfx = Probe.ctx e p
    · injection h with h2 h3
      subst h2; subst h3
      exact absurd hpp hat
    · rw [if_neg h]
  · intro e p h
    rw [count_probe_single] at h
    by_cases h2 : Probe.ctx resolved pfx = Probe.ctx e p
    · injection h2 with h3 h4
      subst h3; subst h4
      exact hmark
    · rw [if_neg h2] at h; omega

theorem prefAtt_after_setd (pa : List (String × List (List String))) (resolved e : String) :
    (List.lookup e (setd pa resolved [])).getD [] = (List.lookup e pa).getD [] := by
  by_cases he : e = resolved
  · subst he
    rw [lookup_setd_self]
    cases List.lookup e pa <;> rfl
  · rw [lookup_setd_ne resolved e [] he pa]

theorem probeOk_ensurePrefix (env : Env) (s : ExtState) (resolved : String)
    (pfx : List String) (wd : String) :
    ProbeOk s (_ensure_external_prefix_metadata env s resolved pfx wd).2.2
      (_ensure_external_prefix_metadata env s resolved pfx wd).2.1 := by
  simp only [_ensure_external_prefix_metadata]
  split
  · exact probeOk_nil s _ (fun e he => he) (fun e p hp => hp)
  · split
    · refine probeOk_nil s _ (fun e he => he) ?_
      intro e p hp
      show p ∈ (List.lookup e (setd s.prefixAttempted resolved [])).getD []
      rw [prefAtt_after_setd]
      exact hp
    · rename_i hat
      refine probeOk_single_ctx s _ resolved pfx ?_ rfl ?_ ?_
      · intro hmem
        apply hat
        show pfx ∈ (List.lookup resolved (setd s.prefixAttempted resolved [])).getD []
        rw [prefAtt_after_setd]
        exact hmem
      · intro e p hp
        by_cases he : e = resolved
        · subst he
          show p ∈ (List.lookup e (aset (setd s.prefixAttempted e [])
            e ((List.lookup e (setd s.prefixAttempted e [])).getD [] ++ [pfx]))).getD []
          rw [lookup_aset_self]
          refine List.mem_append.mpr (Or.inl ?_)
          rw [prefAtt_after_setd]
          exact hp
        · show p ∈ (List.lookup e (aset (setd s.prefixAttempted resolved [])
            resolved ((List.lookup resolved (setd s.prefixAttempted resolved [])).getD []
              ++ [pfx]))).getD []
          rw [lookup_aset_ne resolved e _ he, lookup_setd_ne resolved e [] he]
          exact hp
      · show pfx ∈ (List.lookup resolved (aset (setd s.prefixAttempted resolved [])
          resolved ((List.lookup resolved (setd s.prefixAttempted resolved [])).getD []
            ++ [pfx]))).getD []
        rw [lookup_aset_self]
        exact List.mem_append.mpr (Or.inr (List.mem_singleton.mpr rfl))

theorem probeOk_ensureMeta (env : Env) (s : ExtState) (resolved wd : String) :
    ProbeOk s (_ensure_external_metadata env s resolved wd).2
      (_ensure_external_metadata env s resolved wd).1 := by
  simp only [_ensure_external_metadata]
  split
  · exact probeOk_refl s
  · split
    · exact probeOk_nil s _ (fun e he => he) (fun e p hp => hp)
    · rename_i hat
      split
      · exact probeOk_single_top s _ resolved hat rfl (fun e => rfl)
      · exact probeOk_single_top s _ resolved hat rfl (fun e => rfl)

theorem probeOk_getMeta (env : Env) (s : ExtState) (resolved wd : String) :
    ProbeOk s (_get_external_metadata env s resolved wd).2.2
      (_get_external_metadata env s resolved wd).2.1 :=
  probeOk_ensureMeta env s resolved wd

theorem probeOk_ancestorLoop (env : Env) (resolved wd : String) :
    ∀ (parents : List (List String)) (tree : TreeMap) (s : ExtState),
      ProbeOk s (ancestorLoop env resolved wd parents tree s).2.2
        (ancestorLoop env resolved wd parents tree s).2.1 := by
  intro parents
  induction parents with
  | nil => intro tree s; exact probeOk_refl s
  | cons parent rest ih =>
    intro tree s
    simp only [ancestorLoop]
    split
    · split
      · exact ih tree s
      · exact probeOk_refl s
    · split
      · exact probeOk_comp (probeOk_ensurePrefix env s resolved parent wd)
          (ih _ _)
      · exact probeOk_ensurePrefix env s resolved parent wd

theorem probeOk_externalPositional (env : Env) (s1 : ExtState)
    (resolved fragment wd : String) (basePositionals : List String)
    (tree0 : TreeMap) (prefixTuple : List String) :
    ProbeOk s1
      (externalPositional env s1 resolved fragment wd basePositionals tree0 prefixTuple).2.2
      (externalPositional env s1 resolved fragment wd basePositionals tree0 prefixTuple).2.1 := by
  simp only [externalPositional]
  split
  · split
    · exact probeOk_comp (probeOk_refl s1) (probeOk_ancestorLoop env resolved wd _ _ _)
    · exact probeOk_comp (probeOk_refl s1) (probeOk_refl s1)
  · split
    · split
      · exact probeOk_comp (probeOk_ensurePrefix env s1 resolved prefixTuple wd)
          (probeOk_ancestorLoop env resolved wd _ _ _)
      · exact probeOk_comp (probeOk_ensurePrefix env s1 resolved prefixTuple wd)
          (probeOk_refl _)
    · split
      · exact probeOk_comp (probeOk_ensurePrefix env s1 resolved prefixTuple wd)
          (probeOk_ancestorLoop env resolved wd _ _ _)
      · exact probeOk_comp (probeOk_ensurePrefix env s1 resolved prefixTuple wd)
          (probeOk_refl _)

theorem probeOk_completeExternal (env : Env) (s : ExtState) (cmd fragment : String)
    (tokens_before : List String) (wd : String) :
    ProbeOk s (complete_external_command env s cmd fragment tokens_before wd).2.2
      (complete_external_command env s cmd fragment tokens_before wd).2.1 := by
  simp only [complete_external_command]
  split
  · exact probeOk_refl s
  · split
    · exact probeOk_refl s
    · split
      · exact probeOk_getMeta env s _ wd
      · split
        · exact probeOk_refl s
        · exact probeOk_comp (probeOk_getMeta env s _ wd)
            (probeOk_externalPositional env _ _ fragment wd _ _ _)

theorem probeOk_completeAfter (env : Env) (s : ExtState) (fragment : String)
    (tokens_before : List String) (wd : String) :
    ProbeOk s (complete_after_command env s fragment tokens_before wd).2.2
      (complete_after_command env s fragment tokens_before wd).2.1 := by
  simp only [complete_after_command]
  split
  · exact probeOk_refl s
  · split
    · exact probeOk_completeExternal env s _ fragment _ wd
    · split
      · exact probeOk_refl s
      · split
        · exact probeOk_refl s
        · exact probeOk_refl s

theorem probeOk_completerOptions (env : Env) (s : ExtState) (buffer : String)
    (beg : Nat) (text : String) :
    ProbeOk s (completerOptions env s buffer beg text).2.2
      (completerOptions env s buffer beg text).2.1 := by
  have hd : ProbeOk s (completionDispatch env s buffer beg text).2.2
      (completionDispatch env s buffer beg text).2.1 := by
    simp only [completionDispatch]
    split
    · exact probeOk_refl s
    · exact probeOk_completeAfter env s text _ _
  simp only [completerOptions]
  split
  · rename_i heq
    rw [heq] at hd
    exact hd
  · rename_i heq
    rw [heq] at hd
    exact hd

theorem probeOk_runAllFrom (env : Env) :
    ∀ (reqs : List Request) (s : ExtState),
      ProbeOk s (runAllFrom env s reqs).2 (runAllFrom env s reqs).1 := by
  intro reqs
  induction reqs with
  | nil => intro s; exact probeOk_refl s
  | cons r rs ih =>
    intro s
    simp only [runAllFrom]
    exact probeOk_comp (probeOk_completerOptions env s r.buffer r.beg r.text) (ih _)

/-- C1: across any sequence of completion requests within one process, at
most one top-level help probe is issued per resolved executable and at most
one contextual probe per (executable, prefix) pair; once an executable or a
prefix is marked attempted — whatever the outcome of its probe — it is never
probed again. -/
theorem c1_probe_cache_monotone (env : Env) (s : ExtState) (reqs : List Request)
    (e : String) (p : List String) :
    List.count (Probe.top e) (runAllFrom env s reqs).2 ≤ 1 ∧
    List.count (Probe.ctx e p) (runAllFrom env s reqs).2 ≤ 1 ∧
    (e ∈ s.metaAttempted → List.count (Probe.top e) (runAllFrom env s reqs).2 = 0) ∧
    (p ∈ prefAtt s e → List.count (Probe.ctx e p) (runAllFrom env s reqs).2 = 0) :=
  let h := probeOk_runAllFrom env reqs s
  ⟨h.topLe e, h.ctxLe e p, h.topZero e, h.ctxZero e p⟩

/-- Caches in which `/bin/x` and its prefix `("a",)` are already attempted. -/
def sC1 : ExtState :=
  ⟨[], [], [], ["/bin/x"], [("/bin/x", [["a"]])]⟩

/-- Witness instantiating the hypotheses of `c1_probe_cache_monotone`. -/
theorem c1_witness :
    ("/bin/x" ∈ sC1.metaAttempted) ∧ (["a"] ∈ prefAtt sC1 "/bin/x") ∧
    List.count (Probe.top "/bin/x") (runAllFrom envTriv sC1 [⟨"ls -", 4, "-"⟩]).2 = 0 ∧
    List.count (Probe.ctx "/bin/x" ["a"]) (runAllFrom envTriv sC1 [⟨"ls -", 4, "-"⟩]).2 = 0 :=
  ⟨by decide, by decide,
   (c1_probe_cache_monotone envTriv sC1 [⟨"ls -", 4, "-"⟩] "/bin/x" ["a"]).2.2.1 (by decide),
   (c1_probe_cache_monotone envTriv sC1 [⟨"ls -", 4, "-"⟩] "/bin/x" ["a"]).2.2.2 (by decide)⟩

end AShell
